import Mathlib

/-!
Verification development for the OCR extraction orchestration engine
(`src/utils/ocr_extractor.py`).

The Python module coordinates black-box collaborator calls (pdfplumber
embedded-text extraction, pdf2image rasterization, pytesseract recognition)
under per-call deadlines.  We embed the orchestration logic shallowly:

* A black-box call is abstracted by a `Behavior`: it completes with a value
  after `t` seconds, raises an exception after `t` seconds, or hangs forever.
* The `timeout` context manager (`with concurrent.futures.ThreadPoolExecutor()
  as executor: ... yield run`) is modelled at two granularities:
  - `timeout_run`: the semantics of the yielded `run` closure alone
    (`executor.submit(f).result(timeout=seconds)` re-raises the work's
    exception, or raises the module's custom `TimeoutError` once `seconds`
    elapse);
  - `timeout_block`: the semantics of a whole `with timeout(..) as run:` block
    containing one `run` call, including the context-manager exit.  On exit
    (normal or exceptional) `ThreadPoolExecutor.__exit__` executes
    `shutdown(wait=True)`, which joins the worker thread, i.e. blocks until
    the submitted work finishes.  Hence the caller's elapsed wall-clock time
    is the work's own duration `t` (not `min t seconds`), and if the work
    hangs forever the block never returns — modelled by `none`.
* Functions that may raise are modelled with `Except String`; a computation
  that never returns (a hang reached without any enclosing bound) is `none`.
* Elapsed wall-clock seconds are tracked explicitly; concurrent fan-outs
  (`executor.map`) take the maximum of the branch times, sequential
  composition adds.
* A coarse trace of which external collaborator kinds were invoked
  (rasterizer / recognizer) is recorded, to state the embedded-text
  short-circuit property.

String helpers (`pyStrip`, `joinNl`, `listContainsSub`, ...) model the Python
operations `str.strip`, `"\n".join`, the `in` substring test, `str.lower`,
and the regexes of `clean_text` at ASCII fidelity (the claims' properties
are insensitive to the non-ASCII corner cases of Python's Unicode  handling).
-/

/-- Behavior of one black-box unit of work submitted to a worker thread:
it completes with a value after `t` seconds, raises after `t` seconds,
or never returns. -/
inductive Behavior (α : Type) where
  | completes (t : Nat) (v : α)
  | raises (t : Nat) (e : String)
  | hangs
deriving DecidableEq

/-- Result of `executor.submit(work).result(timeout=seconds)` as observed by
the caller of the `run` closure: the work's value, the module's custom
`TimeoutError` (here `timedOut` with its message), or the work's own
exception re-raised (`failed`). -/
inductive Outcome (α : Type) where
  | success (v : α)
  | timedOut (msg : String)
  | failed (e : String)
deriving DecidableEq

/-- Message of the custom `TimeoutError`:
`f"{task_name} timed out after {seconds} seconds"`. -/
def timeoutMsg (taskName : String) (seconds : Nat) : String :=
  taskName ++ " timed out after " ++ toString seconds ++ " seconds"

/-- Semantics of the `run` closure yielded by the `timeout` context manager:
`executor.submit(func).result(timeout=seconds)`, where a
`concurrent.futures.TimeoutError` is converted into the module's
`TimeoutError(timeoutMsg ..)` and any exception raised by the work itself is
re-raised unchanged.  If the work hangs, `run` raises the `TimeoutError`
once `seconds` elapse. -/
def timeout_run {α : Type} (seconds : Nat) (taskName : String) (b : Behavior α) :
    Outcome α :=
  match b with
  | .completes t v =>
      if t ≤ seconds then .success v else .timedOut (timeoutMsg taskName seconds)
  | .raises t e =>
      if t ≤ seconds then .failed e else .timedOut (timeoutMsg taskName seconds)
  | .hangs => .timedOut (timeoutMsg taskName seconds)

/-- Semantics of a whole `with timeout(seconds, taskName) as run:` block
containing a single `run` call: the outcome delivered to the code after the
block, paired with the caller's elapsed wall-clock seconds.  Because
`ThreadPoolExecutor.__exit__` runs `shutdown(wait=True)` (joining the worker
even when the block is being unwound by a `TimeoutError`), the elapsed time
is the work's own duration `t`, regardless of `seconds`; work that hangs
forever makes the block never return (`none`). -/
def timeout_block {α : Type} (seconds : Nat) (taskName : String) (b : Behavior α) :
    Option (Outcome α × Nat) :=
  match b with
  | .completes t _ => some (timeout_run seconds taskName b, t)
  | .raises t _ => some (timeout_run seconds taskName b, t)
  | .hangs => none

/-- Python `\s` for the ASCII range: space, tab, newline, carriage return,
vertical tab, form feed. -/
def pyIsSpace (c : Char) : Bool :=
  c.toNat = 32 || c.toNat = 9 || c.toNat = 10 || c.toNat = 13 ||
    c.toNat = 11 || c.toNat = 12

/-- Python `str.strip()` on a character list: drop whitespace from both ends. -/
def pyStripList (l : List Char) : List Char :=
  ((l.dropWhile pyIsSpace).reverse.dropWhile pyIsSpace).reverse

/-- Python `str.strip()`. -/
def pyStrip (s : String) : String :=
  String.mk (pyStripList s.data)

/-- Python `"\n".join(l)`. -/
def joinNl : List String → String
  | [] => ""
  | [s] => s
  | s :: rest => s ++ "\n" ++ joinNl rest

/-- Python substring test `needle in hay` on character lists. -/
def listContainsSub (needle : List Char) : List Char → Bool
  | [] => needle.isEmpty
  | c :: t => needle.isPrefixOf (c :: t) || listContainsSub needle t

/-- Python substring test `needle in hay`. -/
def strContains (hay needle : String) : Bool :=
  listContainsSub needle.data hay.data

/-- Python `max(results, key=lambda t: len(t.strip()))`: the built-in `max`
scans left to right and replaces the current best only when the key is
strictly greater, so the first element attaining the maximal key wins.
The call sites always pass non-empty lists (`max` on an empty sequence would
raise); the `[]` case is an arbitrary default. -/
def selectBest (results : List String) : String :=
  match results with
  | [] => ""
  | r :: rs =>
      rs.foldl (fun best t =>
        if (pyStrip best).length < (pyStrip t).length then t else best) r

/-- Modelled from the spec: "longest non-blank trimmed output wins; ties
broken by earliest configuration in the input ordering".  The first element
of the list whose trimmed length equals the maximal trimmed length.  Used
only to compare with the implementation's `selectBest`. -/
def specSelectBest (l : List String) : Option String :=
  l.find? (fun s =>
    (pyStrip s).length = (l.map (fun t => (pyStrip t).length)).foldl Nat.max 0)

/-- Pixel payload of an image: a single-channel intensity image (PIL modes
`"L"` and `"1"`, one value `0..255` per pixel) or a three-channel color
image. -/
inductive PixelData where
  | gray (px : List Nat)
  | color (px : List (Nat × Nat × Nat))
deriving DecidableEq

/-- A PIL image: dimensions, mode tag, and pixel payload. -/
structure Image where
  width : Nat
  height : Nat
  mode : String
  data : PixelData
deriving DecidableEq

/-- PIL integer luminance used by `convert("L")` on a color image:
`L = (19595 R + 38470 G + 7471 B + 32768) >> 16`. -/
def luma (p : Nat × Nat × Nat) : Nat :=
  (19595 * p.1 + 38470 * p.2.1 + 7471 * p.2.2 + 32768) / 65536

/-- `image.convert("L")`: an `"L"`/`"1"` image keeps its per-pixel bytes
(PIL stores `"1"` pixels as bytes 0/255); a color image is converted by the
luminance formula. -/
def Image.convertL (img : Image) : Image :=
  match img.data with
  | .gray _ => { img with mode := "L" }
  | .color px => { img with mode := "L", data := .gray (px.map luma) }

/-- `image.point(lambda x: 0 if x < 200 else 255, '1')`: threshold every
pixel at intensity 200 and switch to mode `"1"`.  (Applied after
`convert("L")`, so the color branch is unreachable at the call site; PIL's
`point` would apply the lookup table per channel.) -/
def Image.pointBinarize (img : Image) : Image :=
  match img.data with
  | .gray px =>
      { img with mode := "1", data := .gray (px.map (fun x => if x < 200 then 0 else 255)) }
  | .color px =>
      { img with
        mode := "1",
        data := .color (px.map (fun p =>
          (if p.1 < 200 then 0 else 255, if p.2.1 < 200 then 0 else 255,
           if p.2.2 < 200 then 0 else 255))) }

/-- The image is already binarized: mode `"1"` with every pixel 0 or 255. -/
def Image.isBinarized (img : Image) : Bool :=
  img.mode = "1" &&
    match img.data with
    | .gray px => px.all (fun v => v = 0 || v = 255)
    | .color _ => false

/-- `preprocess_image`: downscale when a dimension exceeds 2000 (the LANCZOS
resampling of the pixel payload is an external collaborator, passed as
`resample`; the new dimensions model
`int(width * min(2000/width, 2000/height))` with exact arithmetic), then
convert to grayscale and binarize. -/
def preprocess_image (resample : Image → Nat → Nat → PixelData) (image : Image) :
    Image :=
  let image :=
    if 2000 < image.width ∨ 2000 < image.height then
      let m := Nat.max image.width image.height
      let w := image.width * 2000 / m
      let h := image.height * 2000 / m
      { width := w, height := h, mode := image.mode, data := resample image w h }
    else image
  image.convertL.pointBinarize

/-- A collaborator kind invoked by a pipeline run (coarse trace: which
external collaborators were reached at least once, used to state the
embedded-text short-circuit property). -/
inductive CallEv where
  | rasterize
  | recognize
deriving DecidableEq

/-- `sequenceOptions` collects a list of possibly-diverging computations:
if every entry returned, the list of their values; if any entry diverged
(`none`), the whole fan-out diverges (the `list(executor.map(..))` join
waits forever). -/
def sequenceOptions {α : Type} : List (Option α) → Option (List α)
  | [] => some []
  | none :: _ => none
  | some a :: rest => (sequenceOptions rest).map (fun l => a :: l)

/-- The error carried by an `Except`, if any. -/
def errOf : Except String String → Option String
  | .error e => some e
  | .ok _ => none

/-- The value carried by an `Except`, defaulting to `""` (only used on
lists already known to contain no errors). -/
def okOf : Except String String → String
  | .ok s => s
  | .error _ => ""

/-- `run_ocr_config(image, config)`: one recognition attempt under a
10-second deadline; `except TimeoutError: return ""` converts a timeout
into the empty string, but any other exception raised by the work is NOT
caught and propagates to the caller.  `b` is the behavior of
`pytesseract.image_to_string(image, ..., config=config)` on this image.
The result is paired with the caller's elapsed seconds; `none` when the
recognizer hangs forever (the executor shutdown join never returns). -/
def run_ocr_config (config : String) (b : Behavior String) :
    Option (Except String String × Nat) :=
  match timeout_block 10 ("OCR config " ++ config) b with
  | none => none
  | some (.success v, t) => some (.ok v, t)
  | some (.timedOut _, t) => some (.ok "", t)
  | some (.failed e, t) => some (.error e, t)

/-- Page marker + placeholder returned for a page whose OCR timed out:
`f"--- Page {page_number} ---\n[OCR timeout - page skipped]"`. -/
def pagePlaceholder (n : Nat) : String :=
  "--- Page " ++ toString n ++ " ---\n[OCR timeout - page skipped]"

/-- Normal per-page result: `f"--- Page {page_number} ---\n{text.strip()}"`. -/
def pageHeader (n : Nat) (text : String) : String :=
  "--- Page " ++ toString n ++ " ---\n" ++ pyStrip text

/-- `process_pdf_page(page_number, image)`: preprocess, then under one
`with timeout(30, ..) as run:` block run the whitelist-constrained OCR pass
(`ocr1`) and, if its output is blank, a second permissive pass (`ocr2`);
`except TimeoutError` degrades to the placeholder.  A non-timeout exception
from either pass propagates (modelled as `Except.error`); a pass that hangs
forever makes the call never return (`none`).  `ocr1`/`ocr2` give the
recognizer's behavior on the preprocessed image. -/
def process_pdf_page (resample : Image → Nat → Nat → PixelData)
    (ocr1 ocr2 : Image → Behavior String) (pageNumber : Nat) (image : Image) :
    Option (Except String String × Nat) :=
  let pimg := preprocess_image resample image
  match timeout_block 30 ("OCR page " ++ toString pageNumber) (ocr1 pimg) with
  | none => none
  | some (.failed e, t1) => some (.error e, t1)
  | some (.timedOut _, t1) => some (.ok (pagePlaceholder pageNumber), t1)
  | some (.success text, t1) =>
    if pyStrip text = "" then
      match timeout_block 30 ("OCR page " ++ toString pageNumber) (ocr2 pimg) with
      | none => none
      | some (.failed e, t2) => some (.error e, t1 + t2)
      | some (.timedOut _, t2) => some (.ok (pagePlaceholder pageNumber), t1 + t2)
      | some (.success text2, t2) => some (.ok (pageHeader pageNumber text2), t1 + t2)
    else some (.ok (pageHeader pageNumber text), t1)

/-- Environment of `extract_from_pdf_fallback`: behavior of the low-dpi
single-page `convert_from_path` call, the resampling collaborator used by
`preprocess_image`, and the recognizer's behavior per (preprocessed image,
configuration string). -/
structure FallbackEnv where
  conv : Behavior (List Image)
  resample : Image → Nat → Nat → PixelData
  ocr : Image → String → Behavior String

/-- Result of one fallback run: returned text, elapsed seconds, collaborator
kinds invoked. -/
structure FRes where
  text : String
  time : Nat
  calls : List CallEv
deriving DecidableEq

/-- The four fallback configurations raced over the first page. -/
def fallbackConfigs : List String :=
  ["--psm 4 --oem 1", "--psm 6 --oem 1", "--psm 12 --oem 1", "--psm 8 --oem 1"]

/-- Returned when the whole fallback body raised (caught by its
`except Exception`). -/
def failPlaceholder : String :=
  "--- Page 1 ---\n[Text extraction failed - please try a different document format]"

/-- Returned when every raced configuration produced blank text. -/
def noTextPlaceholder : String :=
  "--- Page 1 ---\n[Unable to extract text]"

/-- `extract_from_pdf_fallback(file_path)`: re-rasterize page 1 at 100 dpi
under a 90-second deadline, preprocess it, race the four fallback
configurations in parallel, and keep the longest stripped output.  The
body's `except Exception` converts any raised error (conversion timeout,
conversion failure, empty conversion, or a non-timeout recognizer error
propagating out of `run_ocr_config`) into `failPlaceholder`.  `none` when
some collaborator hangs forever (the function then never returns). -/
def extract_from_pdf_fallback (env : FallbackEnv) : Option FRes :=
  match timeout_block 90 "PDF fallback conversion" env.conv with
  | none => none
  | some (.timedOut _, t) => some ⟨failPlaceholder, t, [CallEv.rasterize]⟩
  | some (.failed _, t) => some ⟨failPlaceholder, t, [CallEv.rasterize]⟩
  | some (.success images, t) =>
    match images with
    | [] => some ⟨failPlaceholder, t, [CallEv.rasterize]⟩
    | img :: _ =>
      let pimg := preprocess_image env.resample img
      let runs := fallbackConfigs.map (fun cfg => run_ocr_config cfg (env.ocr pimg cfg))
      match sequenceOptions runs with
      | none => none
      | some rs =>
        let tRace := (rs.map Prod.snd).foldl Nat.max 0
        match rs.findSome? (fun r => errOf r.1) with
        | some _ => some ⟨failPlaceholder, t + tRace, [CallEv.rasterize, CallEv.recognize]⟩
        | none =>
          let best := selectBest (rs.map (fun r => okOf r.1))
          some ⟨if pyStrip best = "" then noTextPlaceholder
                else "--- Page 1 (Fallback Method) ---\n" ++ pyStrip best,
                t + tRace, [CallEv.rasterize, CallEv.recognize]⟩

/-- Environment of `extract_from_pdf`: behavior of the pdfplumber
embedded-text stage (the per-page `extract_text()` results, `none` for a
page returning Python `None`), behavior of the 150-dpi `convert_from_path`
call, the resampling collaborator, the two per-page recognizer passes
(indexed by preprocessed page image), and the fallback pipeline's own
environment. -/
structure PdfEnv where
  embedded : Behavior (List (Option String))
  conv : Behavior (List Image)
  resample : Image → Nat → Nat → PixelData
  ocr1 : Image → Behavior String
  ocr2 : Image → Behavior String
  fb : FallbackEnv

/-- Result of one `extract_from_pdf` run: returned text or raised error,
elapsed seconds, collaborator kinds invoked. -/
structure Res where
  out : Except String String
  time : Nat
  calls : List CallEv

/-- The embedded-text concatenation
`"\n".join([page.extract_text() or "" for page in pdf.pages[:3]])`. -/
def embJoin (pages : List (Option String)) : String :=
  joinNl ((pages.take 3).map (fun o => o.getD ""))

/-- The parallel page fan-out
`executor.map(lambda p: process_pdf_page(p[0], p[1]), enumerate(images, start=1))`:
one `process_pdf_page` task per rasterized image, numbered from `k`. -/
def mapPages (env : PdfEnv) : Nat → List Image → List (Option (Except String String × Nat))
  | _, [] => []
  | k, img :: rest =>
      process_pdf_page env.resample env.ocr1 env.ocr2 k img :: mapPages env (k + 1) rest

/-- Page fan-out starting at page number 1. -/
def pageRunsOf (env : PdfEnv) (images : List Image) :
    List (Option (Except String String × Nat)) :=
  mapPages env 1 images

/-- The OCR path of `extract_from_pdf` (everything after the embedded-text
attempt, which has already consumed `t0` seconds): rasterize the first three
pages under a 60-second deadline, fan out `process_pdf_page` over the pages,
join the results with newlines, and fall back when the concatenation is
blank or contains the timeout placeholder.  The outer handlers re-wrap a
`TimeoutError` as `"PDF processing timed out: .."` and any other exception
as `"Failed to extract text from PDF: .."` (the `executor.map` join re-raises
the first per-page exception in page order). -/
def extract_from_pdf_ocr (env : PdfEnv) (t0 : Nat) : Option Res :=
  match timeout_block 60 "PDF conversion" env.conv with
  | none => none
  | some (.timedOut msg, t1) =>
      some ⟨.error ("PDF processing timed out: " ++ msg), t0 + t1, [CallEv.rasterize]⟩
  | some (.failed e, t1) =>
      some ⟨.error ("Failed to extract text from PDF: " ++ e), t0 + t1, [CallEv.rasterize]⟩
  | some (.success images, t1) =>
    match sequenceOptions (pageRunsOf env images) with
    | none => none
    | some rs =>
      let tPages := (rs.map Prod.snd).foldl Nat.max 0
      let evs := CallEv.rasterize :: (if images.isEmpty then [] else [CallEv.recognize])
      match rs.findSome? (fun r => errOf r.1) with
      | some e =>
          some ⟨.error ("Failed to extract text from PDF: " ++ e), t0 + t1 + tPages, evs⟩
      | none =>
        let extracted := joinNl (rs.map (fun r => okOf r.1))
        if pyStrip extracted = "" ∨
            strContains extracted "[OCR timeout - page skipped]" = true then
          match extract_from_pdf_fallback env.fb with
          | none => none
          | some fr => some ⟨.ok fr.text, t0 + t1 + tPages + fr.time, evs ++ fr.calls⟩
        else some ⟨.ok (pyStrip extracted), t0 + t1 + tPages, evs⟩

/-- `extract_from_pdf(file_path)`: first the pdfplumber embedded-text
attempt (not wrapped in any timeout; its own exceptions are swallowed and
the OCR path is taken instead); if the joined embedded text is non-blank it
is returned verbatim, bypassing rasterization and recognition entirely. -/
def extract_from_pdf (env : PdfEnv) : Option Res :=
  match env.embedded with
  | .hangs => none
  | .completes t0 pages =>
      if pyStrip (embJoin pages) ≠ "" then some ⟨.ok (embJoin pages), t0, []⟩
      else extract_from_pdf_ocr env t0
  | .raises t0 _ => extract_from_pdf_ocr env t0

/-- ASCII fragment of Python `str.lower()`: map `A`-`Z` to `a`-`z`. -/
def pyLower (c : Char) : Char :=
  if 65 ≤ c.toNat ∧ c.toNat ≤ 90 then Char.ofNat (c.toNat + 32) else c

/-- A character kept by `re.sub(r'[^a-z0-9\s]', '', ..)`: lowercase ASCII
letter or digit. -/
def isLowerAlnum (c : Char) : Bool :=
  (97 ≤ c.toNat && c.toNat ≤ 122) || (48 ≤ c.toNat && c.toNat ≤ 57)

/-- Kept by the first regex of `clean_text`: `[a-z0-9]` or whitespace. -/
def keepChar (c : Char) : Bool :=
  isLowerAlnum c || pyIsSpace c

/-- `re.sub(r'\s+', ' ', ..)`: collapse every maximal run of whitespace to a
single space.  `prevSpace` records whether the previous character belonged
to a whitespace run already emitted as `' '`. -/
def collapseWsAux : Bool → List Char → List Char
  | _, [] => []
  | prevSpace, c :: rest =>
    if pyIsSpace c then
      if prevSpace then collapseWsAux true rest
      else ' ' :: collapseWsAux true rest
    else c :: collapseWsAux false rest

/-- `clean_text(text)`: lowercase, drop everything but `[a-z0-9\s]`,
collapse whitespace runs to single spaces, strip. -/
def clean_text (text : String) : String :=
  if text = "" then ""
  else
    String.mk (pyStripList (collapseWsAux false
      ((text.data.map pyLower).filter keepChar)))

/-- A character allowed in `clean_text` output: lowercase ASCII letter,
digit, or a single space. -/
def cleanChar (c : Char) : Bool :=
  isLowerAlnum c || c = ' '

/-- No two adjacent characters of the list are both whitespace. -/
def noTwoSpaces : List Char → Bool
  | [] => true
  | [_] => true
  | a :: b :: rest => !(pyIsSpace a && pyIsSpace b) && noTwoSpaces (b :: rest)

/-- Neither end of the list is whitespace. -/
def noEdgeSpace (l : List Char) : Bool :=
  l.head?.all (fun c => !pyIsSpace c) && l.getLast?.all (fun c => !pyIsSpace c)

/-- A bounded call whose work exceeds the `s`-second deadline but still
terminates (completes or raises after more than `s` seconds). -/
def exceedsDeadline (s : Nat) (b : Behavior String) : Prop :=
  (∃ t v, b = Behavior.completes t v ∧ s < t) ∨
    (∃ t e, b = Behavior.raises t e ∧ s < t)

lemma listContainsSub_of_isPrefixOf (needle hay : List Char)
    (h : needle.isPrefixOf hay = true) : listContainsSub needle hay = true := by
  cases hay with
  | nil =>
    cases needle with
    | nil => rfl
    | cons c t => simp [List.isPrefixOf] at h
  | cons c t => simp [listContainsSub, h]

lemma isPrefixOf_append_self (l m : List Char) : l.isPrefixOf (l ++ m) = true := by
  rw [List.isPrefixOf_iff_prefix]
  exact ⟨m, rfl⟩

lemma listContainsSub_true_iff (needle hay : List Char) :
    listContainsSub needle hay = true ↔ needle <:+: hay := by
  induction hay with
  | nil =>
    simp [listContainsSub, List.infix_nil, List.isEmpty_iff]
  | cons c t ih =>
    simp only [listContainsSub, Bool.or_eq_true, List.isPrefixOf_iff_prefix, ih,
      List.infix_cons_iff]

lemma data_infix_joinNl (x : String) : ∀ l : List String, x ∈ l →
    x.data <:+: (joinNl l).data := by
  intro l
  induction l with
  | nil => intro h; cases h
  | cons s rest ih =>
    intro hmem
    cases rest with
    | nil =>
      have hx : x = s := by simpa using hmem
      subst hx
      exact List.infix_refl _
    | cons s2 rest2 =>
      rcases List.mem_cons.mp hmem with hx | hx
      · subst hx
        show x.data <:+: (x ++ "\n" ++ joinNl (s2 :: rest2)).data
        rw [String.data_append, String.data_append, List.append_assoc]
        exact ⟨[], _, rfl⟩
      · have h1 : x.data <:+: (joinNl (s2 :: rest2)).data := ih hx
        have h2 : (joinNl (s2 :: rest2)).data <:+:
            (s ++ "\n" ++ joinNl (s2 :: rest2)).data := by
          rw [String.data_append]
          exact ⟨(s ++ "\n").data, [], by simp⟩
        exact h1.trans h2

lemma strContains_joinNl_of_mem (l : List String) (x sub : String)
    (hmem : x ∈ l) (hsub : strContains x sub = true) :
    strContains (joinNl l) sub = true := by
  rw [strContains, listContainsSub_true_iff] at hsub ⊢
  exact hsub.trans (data_infix_joinNl x l hmem)

/-- C1: the claim says a Bounded Task Runner invocation never blocks the
caller past the deadline, and that `extract_document`'s total wall-clock
wait is bounded even when an underlying black-box call hangs indefinitely.
The code violates this: the `timeout` context manager's
`ThreadPoolExecutor.__exit__` executes `shutdown(wait=True)`, joining the
worker thread, so the caller waits for the full duration of the abandoned
work.  First conjunct: a rasterization call taking 1000 seconds under the
60-second deadline makes the caller wait 1000 seconds (the `TimedOut`
outcome is delivered only then).  Second conjunct: when the rasterizer
hangs indefinitely, `extract_from_pdf` never returns at all, despite every
recognition stage being wrapped in `timeout`. -/
theorem timeout_wrapper_blocks_past_deadline :
    timeout_block 60 "PDF conversion" (Behavior.completes 1000 ([] : List Image)) =
      some (Outcome.timedOut (timeoutMsg "PDF conversion" 60), 1000) ∧
    extract_from_pdf
      ⟨Behavior.raises 0 "no embedded text", Behavior.hangs,
       fun _ _ _ => PixelData.gray [], fun _ => Behavior.hangs,
       fun _ => Behavior.hangs,
       ⟨Behavior.hangs, fun _ _ _ => PixelData.gray [], fun _ _ => Behavior.hangs⟩⟩ =
      none :=
  ⟨rfl, rfl⟩

/-- C2: the semantics of the `run` closure yielded by the `timeout`
context manager.  Work completing within the deadline yields its value;
if the deadline elapses first (late or hanging work) `run` raises the
custom `TimeoutError` whose message carries the label; work raising within
the deadline propagates its own exception, an outcome distinct from the
timeout signal.  The last conjunct checks that the timeout message indeed
contains the label. -/
theorem timeout_run_cases (α : Type) (s t : Nat) (name : String) (v : α) (e : String) :
    (t ≤ s → timeout_run s name (Behavior.completes t v) = Outcome.success v) ∧
    (s < t → timeout_run s name (Behavior.completes t v) =
      Outcome.timedOut (timeoutMsg name s)) ∧
    (timeout_run s name (Behavior.hangs : Behavior α) =
      Outcome.timedOut (timeoutMsg name s)) ∧
    (s < t → timeout_run s name (Behavior.raises t e : Behavior α) =
      Outcome.timedOut (timeoutMsg name s)) ∧
    (t ≤ s → timeout_run s name (Behavior.raises t e : Behavior α) =
      Outcome.failed e) ∧
    (∀ msg : String, (Outcome.failed e : Outcome α) ≠ Outcome.timedOut msg) ∧
    strContains (timeoutMsg name s) name = true := by
  refine ⟨?_, ?_, rfl, ?_, ?_, ?_, ?_⟩
  · intro h; simp [timeout_run, h]
  · intro h; simp [timeout_run, Nat.not_le.mpr h]
  · intro h; simp [timeout_run, Nat.not_le.mpr h]
  · intro h; simp [timeout_run, h]
  · intro msg hcontra; cases hcontra
  · rw [strContains, timeoutMsg, String.data_append, String.data_append,
      String.data_append, List.append_assoc, List.append_assoc]
    exact listContainsSub_of_isPrefixOf _ _ (isPrefixOf_append_self _ _)

/-- C2 witness: concrete instances of the three outcomes. -/
theorem timeout_run_cases_witness :
    timeout_run 10 "task" (Behavior.completes 3 "ok") = Outcome.success "ok" ∧
    timeout_run 10 "task" (Behavior.completes 20 "ok") =
      Outcome.timedOut (timeoutMsg "task" 10) ∧
    timeout_run 10 "task" (Behavior.raises 3 "boom" : Behavior String) =
      Outcome.failed "boom" ∧
    strContains (timeoutMsg "task" 10) "task" = true :=
  ⟨(timeout_run_cases String 10 3 "task" "ok" "boom").1 (by decide),
   (timeout_run_cases String 10 20 "task" "ok" "boom").2.1 (by decide),
   (timeout_run_cases String 10 3 "task" "ok" "boom").2.2.2.2.1 (by decide),
   (timeout_run_cases String 10 3 "task" "ok" "boom").2.2.2.2.2.2⟩

/-- C7: when the embedded-text stage completes and its joined text is
non-blank, `extract_from_pdf` returns that text immediately and verbatim
(not even stripped), and neither the rasterizer nor the recognizer is ever
invoked (the collaborator trace is empty). -/
theorem extract_from_pdf_embedded_short_circuit (env : PdfEnv) (t0 : Nat)
    (pages : List (Option String))
    (h : env.embedded = Behavior.completes t0 pages)
    (hnb : pyStrip (embJoin pages) ≠ "") :
    extract_from_pdf env = some ⟨Except.ok (embJoin pages), t0, []⟩ := by
  simp [extract_from_pdf, h, hnb]

/-- C7 witness: a PDF with embedded text "hi" whose rasterizer, recognizer
and fallback collaborators all hang; the embedded text is still returned
immediately with an empty collaborator trace, so none of them was reached. -/
theorem extract_from_pdf_embedded_short_circuit_witness :
    extract_from_pdf
      ⟨Behavior.completes 2 [some "hi"], Behavior.hangs,
       fun _ _ _ => PixelData.gray [], fun _ => Behavior.hangs,
       fun _ => Behavior.hangs,
       ⟨Behavior.hangs, fun _ _ _ => PixelData.gray [], fun _ _ => Behavior.hangs⟩⟩ =
      some ⟨Except.ok "hi", 2, []⟩ :=
  extract_from_pdf_embedded_short_circuit _ 2 [some "hi"] rfl (by decide)

/-- C9: `preprocess_image` is idempotent on images that are already
binarized (mode "1", pixels 0/255) and already within the 2000-pixel
threshold: a second pass yields a byte-identical image. -/
theorem preprocess_image_idempotent (resample : Image → Nat → Nat → PixelData)
    (img : Image) (hw : img.width ≤ 2000) (hh : img.height ≤ 2000)
    (hb : img.isBinarized = true) :
    preprocess_image resample (preprocess_image resample img) =
      preprocess_image resample img := by
  obtain ⟨w, h, mode, data⟩ := img
  cases data with
  | color px => simp [Image.isBinarized] at hb
  | gray px =>
    have hsmall : ¬(2000 < w ∨ 2000 < h) := by
      simp only [Image.width, Image.height] at hw hh
      omega
    have hthr : ∀ x : Nat,
        (if (if x < 200 then 0 else 255) < 200 then 0 else 255) =
          if x < 200 then (0 : Nat) else 255 := by
      intro x
      by_cases hx : x < 200 <;> simp [hx]
    simp only [preprocess_image, Image.convertL, Image.pointBinarize, hsmall,
      if_neg, ite_false]
    simp [List.map_map, Function.comp_def, hthr]

/-- C9 witness: a concrete 2x1 binarized image. -/
theorem preprocess_image_idempotent_witness :
    preprocess_image (fun _ _ _ => PixelData.gray [])
        (preprocess_image (fun _ _ _ => PixelData.gray [])
          ⟨2, 1, "1", PixelData.gray [0, 255]⟩) =
      preprocess_image (fun _ _ _ => PixelData.gray [])
        ⟨2, 1, "1", PixelData.gray [0, 255]⟩ :=
  preprocess_image_idempotent _ _ (by decide) (by decide) (by decide)

/-- C4 counterexample: a recognition attempt whose work raises a
non-timeout error does NOT contribute the empty string to the race —
`run_ocr_config` only catches `TimeoutError`, so the error escapes (as
`Except.error`), contradicting the claim that no attempt's failure
escapes the race boundary. -/
theorem run_ocr_config_error_escapes :
    run_ocr_config "--psm 4 --oem 1" (Behavior.raises 0 "tesseract failure") =
      some (Except.error "tesseract failure", 0) ∧
    run_ocr_config "--psm 4 --oem 1" (Behavior.raises 0 "tesseract failure") ≠
      some (Except.ok "", 0) := by
  refine ⟨rfl, ?_⟩
  intro h
  simp [run_ocr_config, timeout_block, timeout_run] at h

/-- C4 amended: an attempt that exceeds its 10-second deadline but whose
work eventually terminates contributes the empty string; an attempt whose
work raises within the deadline propagates that error out of
`run_ocr_config` (aborting the race; the surrounding pipeline's handler
deals with it); an attempt whose work completes in time contributes its
text; an attempt whose work hangs forever blocks the race (the executor
shutdown join never returns). -/
theorem run_ocr_config_outcomes (config : String) (t : Nat) (v e : String) :
    (10 < t → run_ocr_config config (Behavior.completes t v) =
      some (Except.ok "", t)) ∧
    (10 < t → run_ocr_config config (Behavior.raises t e) =
      some (Except.ok "", t)) ∧
    (t ≤ 10 → run_ocr_config config (Behavior.raises t e) =
      some (Except.error e, t)) ∧
    (t ≤ 10 → run_ocr_config config (Behavior.completes t v) =
      some (Except.ok v, t)) ∧
    run_ocr_config config Behavior.hangs = none := by
  refine ⟨?_, ?_, ?_, ?_, rfl⟩
  · intro h; simp [run_ocr_config, timeout_block, timeout_run, Nat.not_le.mpr h]
  · intro h; simp [run_ocr_config, timeout_block, timeout_run, Nat.not_le.mpr h]
  · intro h; simp [run_ocr_config, timeout_block, timeout_run, h]
  · intro h; simp [run_ocr_config, timeout_block, timeout_run, h]

/-- C4 witness: concrete instances of the amended behaviors. -/
theorem run_ocr_config_outcomes_witness :
    run_ocr_config "--psm 6 --oem 1" (Behavior.completes 25 "late text") =
      some (Except.ok "", 25) ∧
    run_ocr_config "--psm 6 --oem 1" (Behavior.raises 2 "bad input") =
      some (Except.error "bad input", 2) ∧
    run_ocr_config "--psm 6 --oem 1" (Behavior.completes 2 "quick") =
      some (Except.ok "quick", 2) :=
  ⟨(run_ocr_config_outcomes "--psm 6 --oem 1" 25 "late text" "bad input").1
      (by decide),
   (run_ocr_config_outcomes "--psm 6 --oem 1" 2 "late text" "bad input").2.2.1
      (by decide),
   (run_ocr_config_outcomes "--psm 6 --oem 1" 2 "quick" "bad input").2.2.2.1
      (by decide)⟩

/-- C6 counterexample: a page whose recognition call hangs forever does
NOT yield the placeholder — `process_pdf_page` never returns at all,
because the `timeout` wrapper's executor shutdown joins the hung worker
before the `except TimeoutError` handler can run. -/
theorem process_pdf_page_hang_diverges :
    process_pdf_page (fun _ _ _ => PixelData.gray [])
      (fun _ => Behavior.hangs) (fun _ => Behavior.hangs) 1
      ⟨2, 1, "1", PixelData.gray [0, 255]⟩ = none :=
  rfl

lemma mapPages_length (env : PdfEnv) : ∀ (images : List Image) (k : Nat),
    (mapPages env k images).length = images.length := by
  intro images
  induction images with
  | nil => intro k; rfl
  | cons img rest ih => intro k; simp [mapPages, ih]

lemma mapPages_get (env : PdfEnv) : ∀ (images : List Image) (k i : Nat)
    (hi : i < images.length) (hl : i < (mapPages env k images).length),
    (mapPages env k images).get ⟨i, hl⟩ =
      process_pdf_page env.resample env.ocr1 env.ocr2 (k + i)
        (images.get ⟨i, hi⟩) := by
  intro images
  induction images with
  | nil => intro k i hi; simp at hi
  | cons img rest ih =>
    intro k i hi hl
    cases i with
    | zero => simp [mapPages]
    | succ j =>
      have hj : j < rest.length := by simpa using hi
      have hjl : j < (mapPages env (k + 1) rest).length := by
        rw [mapPages_length]; exact hj
      have := ih (k + 1) j hj hjl
      simp only [mapPages, List.get_cons_succ]
      rw [this]
      congr 1
      omega

/-- C6 amended: (a) a page whose recognition call exceeds the 30-second
page deadline but eventually terminates — either on the first
(whitelist-constrained) pass, or on the second (permissive) pass after a
blank in-time first pass — returns exactly the page placeholder and raises
no exception; (b) the page fan-out assigns every page its own independent
`process_pdf_page` task, in page-index order (page `i` of the rasterized
list is task `i + 1`), so sibling pages' entries in the concatenation are
unaffected by one page's timeout.  (The unamended claim also covered a
recognition call that never terminates; there the code diverges instead of
returning the placeholder — see the counterexample.) -/
theorem process_pdf_page_timeout_degrades :
    (∀ (resample : Image → Nat → Nat → PixelData)
        (ocr1 ocr2 : Image → Behavior String) (n : Nat) (image : Image),
      (exceedsDeadline 30 (ocr1 (preprocess_image resample image)) ∨
        (∃ t1 txt, ocr1 (preprocess_image resample image) =
            Behavior.completes t1 txt ∧ t1 ≤ 30 ∧ pyStrip txt = "" ∧
          exceedsDeadline 30 (ocr2 (preprocess_image resample image)))) →
      (process_pdf_page resample ocr1 ocr2 n image).map Prod.fst =
        some (Except.ok (pagePlaceholder n))) ∧
    (∀ (env : PdfEnv) (images : List Image),
      (pageRunsOf env images).length = images.length) ∧
    (∀ (env : PdfEnv) (images : List Image) (i : Nat) (hi : i < images.length)
        (hl : i < (pageRunsOf env images).length),
      (pageRunsOf env images).get ⟨i, hl⟩ =
        process_pdf_page env.resample env.ocr1 env.ocr2 (i + 1)
          (images.get ⟨i, hi⟩)) := by
  refine ⟨?_, ?_, ?_⟩
  · intro resample ocr1 ocr2 n image hcase
    rcases hcase with hlate | ⟨t1, txt, h1, ht1, hblank, hlate⟩
    · rcases hlate with ⟨t, v, hb, ht⟩ | ⟨t, e, hb, ht⟩ <;>
        simp [process_pdf_page, hb, timeout_block, timeout_run, Nat.not_le.mpr ht]
    · rcases hlate with ⟨t, v, hb, ht⟩ | ⟨t, e, hb, ht⟩ <;>
        simp [process_pdf_page, h1, hb, timeout_block, timeout_run, ht1, hblank,
          Nat.not_le.mpr ht]
  · intro env images
    exact mapPages_length env images 1
  · intro env images i hi hl
    show (mapPages env 1 images).get ⟨i, hl⟩ =
      process_pdf_page env.resample env.ocr1 env.ocr2 (i + 1) (images.get ⟨i, hi⟩)
    rw [mapPages_get env images 1 i hi hl, Nat.add_comm 1 i]

/-- C6 witness: one page whose OCR completes only after 40 seconds
(exceeding the 30-second deadline) degrades to the placeholder, and in a
two-page document each page's fan-out entry is its own task in order. -/
theorem process_pdf_page_timeout_degrades_witness :
    (process_pdf_page (fun _ _ _ => PixelData.gray [])
        (fun _ => Behavior.completes 40 "x") (fun _ => Behavior.completes 1 "y") 1
        ⟨2, 1, "1", PixelData.gray [0, 255]⟩).map Prod.fst =
      some (Except.ok (pagePlaceholder 1)) ∧
    (pageRunsOf
        ⟨Behavior.raises 0 "e", Behavior.hangs, fun _ _ _ => PixelData.gray [],
         fun _ => Behavior.completes 1 "a", fun _ => Behavior.completes 1 "b",
         ⟨Behavior.hangs, fun _ _ _ => PixelData.gray [],
          fun _ _ => Behavior.hangs⟩⟩
        [⟨2, 1, "1", PixelData.gray [0, 255]⟩, ⟨1, 1, "1", PixelData.gray [255]⟩]).get
        ⟨1, by decide⟩ =
      process_pdf_page (fun _ _ _ => PixelData.gray [])
        (fun _ => Behavior.completes 1 "a") (fun _ => Behavior.completes 1 "b") 2
        ⟨1, 1, "1", PixelData.gray [255]⟩ :=
  ⟨process_pdf_page_timeout_degrades.1 _ _ _ 1 _
      (Or.inl (Or.inl ⟨40, "x", rfl, by decide⟩)),
   process_pdf_page_timeout_degrades.2.2 _ _ 1 (by decide) _⟩

/-- C8 counterexample: when one raced recognition attempt hangs forever,
`extract_from_pdf_fallback` does not return any text — it never returns at
all (the `executor.map` join inside the race waits forever), contradicting
the claim that the fallback always returns some text. -/
theorem extract_from_pdf_fallback_hang_diverges :
    extract_from_pdf_fallback
      ⟨Behavior.completes 1 [⟨2, 1, "1", PixelData.gray [0, 255]⟩],
       fun _ _ _ => PixelData.gray [], fun _ _ => Behavior.hangs⟩ = none :=
  rfl

lemma run_ocr_config_isSome (config : String) (b : Behavior String)
    (h : b ≠ Behavior.hangs) : (run_ocr_config config b).isSome = true := by
  cases b with
  | completes t v =>
    by_cases ht : t ≤ 10 <;>
      simp [run_ocr_config, timeout_block, timeout_run, ht]
  | raises t e =>
    by_cases ht : t ≤ 10 <;>
      simp [run_ocr_config, timeout_block, timeout_run, ht]
  | hangs => exact absurd rfl h

lemma sequenceOptions_isSome {α : Type} (l : List (Option α))
    (h : ∀ x ∈ l, x.isSome = true) : (sequenceOptions l).isSome = true := by
  induction l with
  | nil => rfl
  | cons a rest ih =>
    cases a with
    | none => simpa using h none (List.mem_cons_self none rest)
    | some v =>
      have hrest := ih (fun x hx => h x (List.mem_cons_of_mem _ hx))
      cases hs : sequenceOptions rest with
      | none => rw [hs] at hrest; simp at hrest
      | some rs => simp [sequenceOptions, hs]

/-- C8 amended: provided the re-rasterization call and every raced
recognition attempt terminate (complete or raise, however late), the
fallback pipeline never raises to its caller and always returns some text
(the winning configuration's text or an explicit placeholder).  (The
unamended claim, covering hanging collaborators too, fails — see the
counterexample: a hanging attempt makes the fallback never return.) -/
theorem extract_from_pdf_fallback_total (env : FallbackEnv)
    (hc : env.conv ≠ Behavior.hangs)
    (ho : ∀ img config, env.ocr img config ≠ Behavior.hangs) :
    (extract_from_pdf_fallback env).isSome = true := by
  rcases hb : env.conv with ⟨t, images⟩ | ⟨t, e⟩ | _
  · by_cases ht : t ≤ 90
    · cases images with
      | nil => simp [extract_from_pdf_fallback, hb, timeout_block, timeout_run, ht]
      | cons img rest =>
        have hruns : ∀ x ∈ (fallbackConfigs.map (fun cfg =>
            run_ocr_config cfg
              (env.ocr (preprocess_image env.resample img) cfg))),
            x.isSome = true := by
          intro x hx
          rcases List.mem_map.mp hx with ⟨cfg, _, rfl⟩
          exact run_ocr_config_isSome cfg _ (ho _ cfg)
        have hseq := sequenceOptions_isSome _ hruns
        cases hs : sequenceOptions (fallbackConfigs.map (fun cfg =>
            run_ocr_config cfg
              (env.ocr (preprocess_image env.resample img) cfg))) with
        | none => rw [hs] at hseq; simp at hseq
        | some rs =>
          cases hf : rs.findSome? (fun r => errOf r.1) with
          | none =>
            simp only [extract_from_pdf_fallback, hb, timeout_block,
              timeout_run, if_pos ht, hs, hf]
            split <;> simp
          | some e0 =>
            simp [extract_from_pdf_fallback, hb, timeout_block, timeout_run,
              ht, hs, hf]
    · simp [extract_from_pdf_fallback, hb, timeout_block, timeout_run, ht]
  · by_cases ht : t ≤ 90 <;>
      simp [extract_from_pdf_fallback, hb, timeout_block, timeout_run, ht]
  · exact absurd hb hc

/-- C8 witness: a concrete terminating environment; the fallback returns
some text. -/
theorem extract_from_pdf_fallback_total_witness :
    (extract_from_pdf_fallback
      ⟨Behavior.completes 1 [⟨2, 1, "1", PixelData.gray [0, 255]⟩],
       fun _ _ _ => PixelData.gray [],
       fun _ _ => Behavior.completes 1 "hello"⟩).isSome = true :=
  extract_from_pdf_fallback_total
    ⟨Behavior.completes 1 [⟨2, 1, "1", PixelData.gray [0, 255]⟩],
     fun _ _ _ => PixelData.gray [],
     fun _ _ => Behavior.completes 1 "hello"⟩
    (by decide) (fun _ _ h => Behavior.noConfusion h)

lemma le_foldl_max (l : List Nat) (i : Nat) : i ≤ l.foldl Nat.max i := by
  induction l generalizing i with
  | nil => exact Nat.le_refl i
  | cons a t ih => exact Nat.le_trans (Nat.le_max_left i a) (ih (Nat.max i a))

lemma find_first_max_foldl (f : String → Nat) (rest : List String) :
    ∀ a : String,
    (a :: rest).find? (fun s => f s = ((a :: rest).map f).foldl Nat.max 0) =
      some (rest.foldl (fun best t => if f best < f t then t else best) a) := by
  induction rest with
  | nil =>
    intro a
    have hp : decide (f a = List.foldl Nat.max 0 (List.map f [a])) = true := by
      rw [decide_eq_true_eq]
      exact (Nat.max_eq_right (Nat.zero_le (f a))).symm
    simp only [List.find?_cons, hp, List.foldl_nil]
  | cons c rest ih =>
    intro a
    by_cases hac : f a < f c
    · have hM : ((a :: c :: rest).map f).foldl Nat.max 0 =
          ((c :: rest).map f).foldl Nat.max 0 := by
        show (rest.map f).foldl Nat.max (Nat.max (Nat.max 0 (f a)) (f c)) =
          (rest.map f).foldl Nat.max (Nat.max 0 (f c))
        congr 1
        simp only [Nat.zero_max]
        exact Nat.max_eq_right (Nat.le_of_lt hac)
      have hfc : f c ≤ ((c :: rest).map f).foldl Nat.max 0 := by
        show f c ≤ (rest.map f).foldl Nat.max (Nat.max 0 (f c))
        exact Nat.le_trans (Nat.le_max_right 0 (f c)) (le_foldl_max _ _)
      have hpa : ¬ f a = ((a :: c :: rest).map f).foldl Nat.max 0 := by
        rw [hM]; omega
      rw [List.find?_cons_of_neg _ (by simpa using hpa)]
      have hg : (c :: rest).foldl
            (fun best t => if f best < f t then t else best) a =
          rest.foldl (fun best t => if f best < f t then t else best) c := by
        show rest.foldl _ (if f a < f c then c else a) = _
        rw [if_pos hac]
      rw [hg]
      simp only [hM]
      exact ih c
    · have hM : ((a :: c :: rest).map f).foldl Nat.max 0 =
          ((a :: rest).map f).foldl Nat.max 0 := by
        show (rest.map f).foldl Nat.max (Nat.max (Nat.max 0 (f a)) (f c)) =
          (rest.map f).foldl Nat.max (Nat.max 0 (f a))
        congr 1
        simp only [Nat.zero_max]
        exact Nat.max_eq_left (Nat.le_of_not_lt hac)
      have hg : (c :: rest).foldl
            (fun best t => if f best < f t then t else best) a =
          rest.foldl (fun best t => if f best < f t then t else best) a := by
        show rest.foldl _ (if f a < f c then c else a) = _
        rw [if_neg hac]
      rw [hg]
      have hIH := ih a
      by_cases hpa : f a = ((a :: rest).map f).foldl Nat.max 0
      · rw [List.find?_cons_of_pos _
          (by simp only [decide_eq_true_eq, hM]; exact hpa)]
        rw [List.find?_cons_of_pos _ (by simpa using hpa)] at hIH
        exact hIH
      · have hfa_le : f a ≤ ((a :: rest).map f).foldl Nat.max 0 := by
          show f a ≤ (rest.map f).foldl Nat.max (Nat.max 0 (f a))
          exact Nat.le_trans (Nat.le_max_right 0 (f a)) (le_foldl_max _ _)
        have hca : f c ≤ f a := Nat.le_of_not_lt hac
        rw [List.find?_cons_of_neg _
          (by simp only [decide_eq_true_eq, hM]; exact hpa)]
        rw [List.find?_cons_of_neg _
          (by simp only [decide_eq_true_eq, hM]; omega)]
        rw [List.find?_cons_of_neg _ (by simpa using hpa)] at hIH
        simp only [hM]
        exact hIH

/-- C3: the Strategy Racer's selection (`max(results, key=lambda t:
len(t.strip()))`, embedded as `selectBest`) picks exactly the element the
spec describes: the first element of the ordered result list whose stripped
length attains the maximum — longest trimmed output wins, ties are broken
by the earlier position, independent of completion order (the result list
is in configuration order because `executor.map` preserves submission
order). -/
theorem selectBest_longest_earliest (a : String) (rest : List String) :
    specSelectBest (a :: rest) = some (selectBest (a :: rest)) :=
  find_first_max_foldl (fun s => (pyStrip s).length) rest a

/-- C5: when the primary page fan-out ran (embedded text failed or was
blank, rasterization succeeded, every page task returned without raising)
and the joined concatenation is blank or some page's result carries the
timeout placeholder, `extract_from_pdf` returns exactly the Fallback
Pipeline's result (and diverges exactly when the fallback diverges) —
never the partial primary concatenation. -/
theorem extract_from_pdf_uses_fallback (env : PdfEnv) (t0 tc : Nat)
    (e0 : String) (pages0 : List (Option String)) (images : List Image)
    (rs : List (Except String String × Nat))
    (hemb : env.embedded = Behavior.raises t0 e0 ∨
      (env.embedded = Behavior.completes t0 pages0 ∧
        pyStrip (embJoin pages0) = ""))
    (hconv : timeout_block 60 "PDF conversion" env.conv =
      some (Outcome.success images, tc))
    (hseq : sequenceOptions (pageRunsOf env images) = some rs)
    (herr : rs.findSome? (fun r => errOf r.1) = none)
    (hbad : pyStrip (joinNl (rs.map (fun r => okOf r.1))) = "" ∨
      ∃ r ∈ rs, strContains (okOf r.1) "[OCR timeout - page skipped]" = true) :
    Option.map Res.out (extract_from_pdf env) =
      Option.map (fun fr => Except.ok fr.text)
        (extract_from_pdf_fallback env.fb) := by
  have h1 : extract_from_pdf env = extract_from_pdf_ocr env t0 := by
    rcases hemb with h | ⟨h, hblank⟩
    · simp [extract_from_pdf, h]
    · simp [extract_from_pdf, h, hblank]
  have hcond : pyStrip (joinNl (rs.map (fun r => okOf r.1))) = "" ∨
      strContains (joinNl (rs.map (fun r => okOf r.1)))
        "[OCR timeout - page skipped]" = true := by
    rcases hbad with hb | ⟨r, hrmem, hrc⟩
    · exact Or.inl hb
    · exact Or.inr (strContains_joinNl_of_mem _ _ _
        (List.mem_map_of_mem _ hrmem) hrc)
  rw [h1]
  simp only [extract_from_pdf_ocr, hconv, hseq, herr]
  rw [if_pos hcond]
  cases hf : extract_from_pdf_fallback env.fb <;> simp [hf]

/-- C5 witness: a one-page document whose single page times out (finite
40-second OCR against the 30-second deadline); the result equals the
fallback's text. -/
theorem extract_from_pdf_uses_fallback_witness :
    Option.map Res.out (extract_from_pdf
      ⟨Behavior.raises 0 "nope", Behavior.completes 5 [⟨2, 1, "1", PixelData.gray [0, 255]⟩],
       fun _ _ _ => PixelData.gray [], fun _ => Behavior.completes 40 "x",
       fun _ => Behavior.completes 1 "y",
       ⟨Behavior.completes 1 [⟨2, 1, "1", PixelData.gray [0, 255]⟩],
        fun _ _ _ => PixelData.gray [],
        fun _ _ => Behavior.completes 1 "hello"⟩⟩) =
      Option.map (fun fr => Except.ok fr.text) (extract_from_pdf_fallback
        ⟨Behavior.completes 1 [⟨2, 1, "1", PixelData.gray [0, 255]⟩],
         fun _ _ _ => PixelData.gray [],
         fun _ _ => Behavior.completes 1 "hello"⟩) :=
  extract_from_pdf_uses_fallback _ 0 5 "nope" []
    [⟨2, 1, "1", PixelData.gray [0, 255]⟩]
    [(Except.ok (pagePlaceholder 1), 40)]
    (Or.inl rfl) rfl rfl rfl
    (Or.inr ⟨(Except.ok (pagePlaceholder 1), 40), List.mem_singleton.mpr rfl,
      by rfl⟩)


lemma collapseWsAux_cons_space_true (a : Char) (t : List Char)
    (ha : pyIsSpace a = true) :
    collapseWsAux true (a :: t) = collapseWsAux true t := by
  simp [collapseWsAux, ha]

lemma collapseWsAux_cons_space_false (a : Char) (t : List Char)
    (ha : pyIsSpace a = true) :
    collapseWsAux false (a :: t) = ' ' :: collapseWsAux true t := by
  simp [collapseWsAux, ha]

lemma collapseWsAux_cons_nonspace (b : Bool) (a : Char) (t : List Char)
    (ha : pyIsSpace a = false) :
    collapseWsAux b (a :: t) = a :: collapseWsAux false t := by
  simp [collapseWsAux, ha]

lemma noTwoSpaces_cons (a : Char) (l : List Char) :
    noTwoSpaces (a :: l) = true ↔
      noTwoSpaces l = true ∧
        ∀ c, l.head? = some c → (pyIsSpace a && pyIsSpace c) = false := by
  cases l with
  | nil => simp [noTwoSpaces]
  | cons b t =>
    simp only [noTwoSpaces, Bool.and_eq_true, Bool.not_eq_true', List.head?_cons,
      Option.some.injEq]
    constructor
    · rintro ⟨h1, h2⟩
      exact ⟨h2, fun c hc => hc ▸ h1⟩
    · rintro ⟨h1, h2⟩
      exact ⟨h2 b rfl, h1⟩

lemma collapseWsAux_chars (l : List Char) : ∀ b : Bool,
    (∀ c ∈ l, keepChar c = true) →
    ∀ c ∈ collapseWsAux b l, cleanChar c = true := by
  induction l with
  | nil => intro b _ c hc; simp [collapseWsAux] at hc
  | cons a t ih =>
    intro b hall c hc
    have hta : ∀ c ∈ t, keepChar c = true :=
      fun c hct => hall c (List.mem_cons_of_mem a hct)
    by_cases ha : pyIsSpace a = true
    · cases b with
      | true =>
        rw [collapseWsAux_cons_space_true a t ha] at hc
        exact ih true hta c hc
      | false =>
        rw [collapseWsAux_cons_space_false a t ha] at hc
        rcases List.mem_cons.mp hc with hce | hct
        · subst hce; decide
        · exact ih true hta c hct
    · have haf : pyIsSpace a = false := by
        revert ha; cases pyIsSpace a <;> simp
      rw [collapseWsAux_cons_nonspace b a t haf] at hc
      rcases List.mem_cons.mp hc with hce | hct
      · subst hce
        have hk := hall c (List.mem_cons_self c t)
        rw [keepChar, Bool.or_eq_true] at hk
        rcases hk with h | h
        · rw [cleanChar, Bool.or_eq_true]; exact Or.inl h
        · rw [haf] at h; cases h
      · exact ih false hta c hct

lemma collapseWsAux_true_head (l : List Char) :
    ∀ c, (collapseWsAux true l).head? = some c → pyIsSpace c = false := by
  induction l with
  | nil => intro c hc; cases hc
  | cons a t ih =>
    intro c hc
    by_cases ha : pyIsSpace a = true
    · rw [collapseWsAux_cons_space_true a t ha] at hc
      exact ih c hc
    · have haf : pyIsSpace a = false := by
        revert ha; cases pyIsSpace a <;> simp
      rw [collapseWsAux_cons_nonspace true a t haf, List.head?_cons,
        Option.some.injEq] at hc
      subst hc
      exact haf

lemma collapse_noTwo (l : List Char) : ∀ b : Bool,
    noTwoSpaces (collapseWsAux b l) = true := by
  induction l with
  | nil => intro b; rfl
  | cons a t ih =>
    intro b
    by_cases ha : pyIsSpace a = true
    · cases b with
      | true =>
        rw [collapseWsAux_cons_space_true a t ha]
        exact ih true
      | false =>
        rw [collapseWsAux_cons_space_false a t ha, noTwoSpaces_cons]
        refine ⟨ih true, fun c hc => ?_⟩
        rw [collapseWsAux_true_head t c hc, Bool.and_false]
    · have haf : pyIsSpace a = false := by
        revert ha; cases pyIsSpace a <;> simp
      rw [collapseWsAux_cons_nonspace b a t haf, noTwoSpaces_cons]
      exact ⟨ih false, fun c _ => by rw [haf, Bool.false_and]⟩

lemma dropWhile_head_not (p : Char → Bool) : ∀ (l : List Char) (c : Char),
    (l.dropWhile p).head? = some c → p c = false := by
  intro l
  induction l with
  | nil => intro c hc; cases hc
  | cons a t ih =>
    intro c hc
    rw [List.dropWhile_cons] at hc
    by_cases pa : p a = true
    · rw [if_pos pa] at hc
      exact ih c hc
    · rw [if_neg pa] at hc
      rw [List.head?_cons, Option.some.injEq] at hc
      subst hc
      revert pa; cases p a <;> simp

lemma getLast?_dropWhile (p : Char → Bool) : ∀ l : List Char,
    l.dropWhile p ≠ [] → (l.dropWhile p).getLast? = l.getLast? := by
  intro l
  induction l with
  | nil => intro h; rfl
  | cons a t ih =>
    intro h
    rw [List.dropWhile_cons] at h ⊢
    by_cases pa : p a = true
    · rw [if_pos pa] at h ⊢
      have ht : t ≠ [] := by
        intro he
        subst he
        exact h rfl
      rw [ih h]
      cases t with
      | nil => exact absurd rfl ht
      | cons b t2 => rw [List.getLast?_cons_cons]
    · rw [if_neg pa]

lemma noTwo_iff_chain (l : List Char) :
    noTwoSpaces l = true ↔
      List.Chain' (fun a b => (pyIsSpace a && pyIsSpace b) = false) l := by
  induction l with
  | nil => simp [noTwoSpaces]
  | cons a t ih =>
    rw [noTwoSpaces_cons, List.chain'_cons', ih]
    constructor
    · rintro ⟨h1, h2⟩
      exact ⟨fun y hy => h2 y hy, h1⟩
    · rintro ⟨h1, h2⟩
      exact ⟨h2, fun c hc => h1 c hc⟩

lemma noTwo_reverse (l : List Char) (h : noTwoSpaces l = true) :
    noTwoSpaces l.reverse = true := by
  rw [noTwo_iff_chain] at h ⊢
  rw [List.chain'_reverse]
  exact List.Chain'.imp
    (fun a b hab => by rw [Bool.and_comm] at hab; exact hab) h

lemma noTwo_dropWhile (p : Char → Bool) (l : List Char)
    (h : noTwoSpaces l = true) : noTwoSpaces (l.dropWhile p) = true := by
  induction l with
  | nil => rfl
  | cons a t ih =>
    rw [List.dropWhile_cons]
    by_cases pa : p a = true
    · rw [if_pos pa]
      exact ih ((noTwoSpaces_cons a t).mp h).1
    · rw [if_neg pa]
      exact h

lemma pyStripList_noTwo (l : List Char) (h : noTwoSpaces l = true) :
    noTwoSpaces (pyStripList l) = true := by
  rw [pyStripList]
  exact noTwo_reverse _ (noTwo_dropWhile _ _ (noTwo_reverse _
    (noTwo_dropWhile _ _ h)))

lemma pyStripList_mem (l : List Char) (c : Char) (hc : c ∈ pyStripList l) :
    c ∈ l := by
  rw [pyStripList, List.mem_reverse] at hc
  have h1 : c ∈ (l.dropWhile pyIsSpace).reverse :=
    (List.dropWhile_sublist pyIsSpace).mem hc
  rw [List.mem_reverse] at h1
  exact (List.dropWhile_sublist pyIsSpace).mem h1

lemma pyStripList_noEdge (l : List Char) : noEdgeSpace (pyStripList l) = true := by
  rw [noEdgeSpace, Bool.and_eq_true]
  constructor
  · cases hh : (pyStripList l).head? with
    | none => rfl
    | some c =>
      rw [Option.all_some]
      rw [pyStripList, List.head?_reverse] at hh
      have hne : (l.dropWhile pyIsSpace).reverse.dropWhile pyIsSpace ≠ [] := by
        intro he
        rw [he] at hh
        cases hh
      rw [getLast?_dropWhile pyIsSpace _ hne, List.getLast?_reverse] at hh
      rw [dropWhile_head_not pyIsSpace l c hh]
      rfl
  · cases hh : (pyStripList l).getLast? with
    | none => rfl
    | some c =>
      rw [Option.all_some]
      rw [pyStripList, List.getLast?_reverse] at hh
      rw [dropWhile_head_not pyIsSpace _ c hh]
      rfl

lemma pyLower_fix (c : Char) (h : cleanChar c = true) : pyLower c = c := by
  rw [cleanChar, Bool.or_eq_true] at h
  rcases h with h | h
  · rw [isLowerAlnum, Bool.or_eq_true, Bool.and_eq_true, Bool.and_eq_true,
      decide_eq_true_eq, decide_eq_true_eq, decide_eq_true_eq,
      decide_eq_true_eq] at h
    rw [pyLower, if_neg]
    omega
  · rw [decide_eq_true_eq] at h
    subst h
    decide

lemma clean_imp_keep (c : Char) (h : cleanChar c = true) : keepChar c = true := by
  rw [cleanChar, Bool.or_eq_true] at h
  rw [keepChar, Bool.or_eq_true]
  rcases h with h | h
  · exact Or.inl h
  · rw [decide_eq_true_eq] at h
    subst h
    exact Or.inr (by decide)

lemma space_clean_eq (c : Char) (hc : cleanChar c = true)
    (hs : pyIsSpace c = true) : c = ' ' := by
  rw [cleanChar, Bool.or_eq_true] at hc
  rcases hc with h | h
  · rw [isLowerAlnum, Bool.or_eq_true, Bool.and_eq_true, Bool.and_eq_true,
      decide_eq_true_eq, decide_eq_true_eq, decide_eq_true_eq,
      decide_eq_true_eq] at h
    rw [pyIsSpace] at hs
    simp only [Bool.or_eq_true, decide_eq_true_eq] at hs
    omega
  · rw [decide_eq_true_eq] at h
    exact h

lemma map_pyLower_fix (l : List Char) (h : ∀ c ∈ l, cleanChar c = true) :
    l.map pyLower = l := by
  have h1 : l.map pyLower = l.map id :=
    List.map_congr_left (fun c hc => (pyLower_fix c (h c hc)).trans rfl)
  rw [h1, List.map_id]

lemma filter_keep_fix (l : List Char) (h : ∀ c ∈ l, cleanChar c = true) :
    l.filter keepChar = l :=
  List.filter_eq_self.mpr (fun c hc => clean_imp_keep c (h c hc))

lemma collapse_fix : ∀ l : List Char, (∀ c ∈ l, cleanChar c = true) →
    noTwoSpaces l = true →
    (collapseWsAux false l = l ∧
      ((∀ c, l.head? = some c → pyIsSpace c = false) →
        collapseWsAux true l = l)) := by
  intro l
  induction l with
  | nil => intro _ _; exact ⟨rfl, fun _ => rfl⟩
  | cons a t ih =>
    intro hclean h2
    have hclean_t : ∀ c ∈ t, cleanChar c = true :=
      fun c hc => hclean c (List.mem_cons_of_mem a hc)
    have hnt := (noTwoSpaces_cons a t).mp h2
    by_cases ha : pyIsSpace a = true
    · have haeq : a = ' ' := space_clean_eq a (hclean a (List.mem_cons_self a t)) ha
      have hth : ∀ c, t.head? = some c → pyIsSpace c = false := by
        intro c hc
        have hb := hnt.2 c hc
        rw [ha, Bool.true_and] at hb
        exact hb
      have htt := (ih hclean_t hnt.1).2 hth
      constructor
      · rw [collapseWsAux_cons_space_false a t ha, htt, haeq]
      · intro hcond
        have := hcond a rfl
        rw [ha] at this
        cases this
    · have haf : pyIsSpace a = false := by
        revert ha; cases pyIsSpace a <;> simp
      have hfix := (ih hclean_t hnt.1).1
      constructor
      · rw [collapseWsAux_cons_nonspace false a t haf, hfix]
      · intro _
        rw [collapseWsAux_cons_nonspace true a t haf, hfix]

lemma strip_fix (l : List Char)
    (h1 : ∀ c, l.head? = some c → pyIsSpace c = false)
    (h2 : ∀ c, l.getLast? = some c → pyIsSpace c = false) :
    pyStripList l = l := by
  have hd : l.dropWhile pyIsSpace = l := by
    cases l with
    | nil => rfl
    | cons a t =>
      rw [List.dropWhile_cons, h1 a rfl]
      simp
  rw [pyStripList, hd]
  have hd2 : l.reverse.dropWhile pyIsSpace = l.reverse := by
    cases hr : l.reverse with
    | nil => rfl
    | cons a t =>
      have hha : l.getLast? = some a := by
        rw [← List.head?_reverse, hr, List.head?_cons]
      rw [List.dropWhile_cons, h2 a hha]
      simp
  rw [hd2, List.reverse_reverse]

/-- C10: `clean_text` produces only lowercase ASCII letters, digits and
single-space separators, with no whitespace at either end and no two
adjacent spaces, and it is idempotent: cleaning twice equals cleaning
once. -/
theorem clean_text_canonical (s : String) :
    (clean_text s).data.all cleanChar = true ∧
    noEdgeSpace (clean_text s).data = true ∧
    noTwoSpaces (clean_text s).data = true ∧
    clean_text (clean_text s) = clean_text s := by
  by_cases hs : s = ""
  · subst hs
    exact ⟨rfl, rfl, rfl, rfl⟩
  · have hct : clean_text s = String.mk (pyStripList (collapseWsAux false
        ((s.data.map pyLower).filter keepChar))) := by
      rw [clean_text, if_neg hs]
    have hFkeep : ∀ c ∈ (s.data.map pyLower).filter keepChar,
        keepChar c = true :=
      fun c hc => (List.mem_filter.mp hc).2
    have hCclean : ∀ c ∈ collapseWsAux false
        ((s.data.map pyLower).filter keepChar), cleanChar c = true :=
      collapseWsAux_chars _ false hFkeep
    have hdata : (clean_text s).data = pyStripList (collapseWsAux false
        ((s.data.map pyLower).filter keepChar)) := by
      rw [hct]
    have h1 : (clean_text s).data.all cleanChar = true := by
      rw [hdata, List.all_eq_true]
      exact fun c hc => hCclean c (pyStripList_mem _ c hc)
    have h2 : noEdgeSpace (clean_text s).data = true := by
      rw [hdata]
      exact pyStripList_noEdge _
    have h3 : noTwoSpaces (clean_text s).data = true := by
      rw [hdata]
      exact pyStripList_noTwo _ (collapse_noTwo _ false)
    refine ⟨h1, h2, h3, ?_⟩
    by_cases hr : clean_text s = ""
    · rw [hr]
      rfl
    · have hall : ∀ c ∈ (clean_text s).data, cleanChar c = true :=
        List.all_eq_true.mp h1
      have hedge := h2
      rw [noEdgeSpace, Bool.and_eq_true] at hedge
      have hhead : ∀ c, (clean_text s).data.head? = some c →
          pyIsSpace c = false := by
        intro c hc
        have hh := hedge.1
        rw [hc, Option.all_some] at hh
        revert hh
        cases pyIsSpace c <;> simp
      have hlast : ∀ c, (clean_text s).data.getLast? = some c →
          pyIsSpace c = false := by
        intro c hc
        have hh := hedge.2
        rw [hc, Option.all_some] at hh
        revert hh
        cases pyIsSpace c <;> simp
      rw [clean_text, if_neg hr, map_pyLower_fix _ hall, filter_keep_fix _ hall,
        (collapse_fix _ hall h3).1, strip_fix _ hhead hlast]
